import Mathlib

/-!
Verification development for the `rsc/github` toolkit: a GitHub issue
query/edit client (`issue`), and a local relational cache of issue history
(`issuedb`).  The Go sources are shallowly embedded below:

* `GithubSpec.Edit` — the text-form edit engine of `issue/edit.go`,
  `issue/issue.go` and `issue/acme.go`: rendering an issue header,
  parsing an edited header back, the label-diff functions `diffList`
  and `diffList2`, and the apply phase of `writeIssue`.
* `GithubSpec.Sync`  — the synchronizer of `issuedb/main.go`:
  `downloadByDate` (issues/comments feeds) and `syncIssueEvents`
  (newest-first event feed), over an explicit model of the sqlite
  store and of one transaction per batch.
* `GithubSpec.Refill` — the projection engine `refill` of
  `issuedb/main.go`, replaying the raw event store into History rows.

Machine integers (`int`, `int64`) are modelled as `Int`; the values
involved (issue numbers, event ids) are far below overflow, and no
arithmetic other than comparison is performed on them.  Strings are
modelled as Lean `String`; the Go string helpers used by the sources
are reimplemented character-exactly for ASCII input below.
-/

set_option maxRecDepth 4000

namespace GithubSpec

/-! ### Go string helpers (package `strings`, ASCII fragment) -/

/-- Go `unicode.IsSpace` restricted to ASCII, as used by
`strings.TrimSpace` and `strings.Fields`. -/
def isGoSpace (c : Char) : Bool :=
  c = ' ' || c = '\t' || c = '\n' || c = '\x0b' || c = '\x0c' || c = '\r'

/-- Go `strings.TrimSpace` (ASCII input). -/
def goTrimSpace (s : String) : String :=
  String.mk (((s.toList.dropWhile isGoSpace).reverse.dropWhile isGoSpace).reverse)

/-- Go `strings.HasPrefix s pre`. -/
def goHasPfx (s pre : String) : Bool :=
  pre.toList.isPrefixOf s.toList

/-- Go `strings.TrimPrefix s pre`. -/
def goTrimPfx (s pre : String) : String :=
  if goHasPfx s pre then String.mk (s.toList.drop pre.toList.length) else s

/-- Accumulator loop for `goFields`: split at runs of whitespace. -/
def fieldsAux : List Char → List Char → List (List Char)
  | [], cur => if cur.isEmpty then [] else [cur.reverse]
  | c :: cs, cur =>
    if isGoSpace c then
      if cur.isEmpty then fieldsAux cs [] else cur.reverse :: fieldsAux cs []
    else fieldsAux cs (c :: cur)

/-- Go `strings.Fields`: the whitespace-separated words of `s`. -/
def goFields (s : String) : List String :=
  (fieldsAux s.toList []).map String.mk

/-- Accumulator loop for `goSplitAfterNl`. -/
def splitAfterAux : List Char → List Char → List (List Char)
  | [], cur => [cur.reverse]
  | c :: cs, cur =>
    if c = '\n' then (c :: cur).reverse :: splitAfterAux cs [] else splitAfterAux cs (c :: cur)

/-- Go `strings.SplitAfter s "\n"`: split after every newline, keeping it. -/
def goSplitAfterNl (s : String) : List String :=
  (splitAfterAux s.toList []).map String.mk

/-- Whether `sub` occurs inside `s` (Go `strings.Contains s sub`). -/
def listContainsSub : List Char → List Char → Bool
  | s, sub =>
    if sub.isPrefixOf s then true
    else match s with
      | [] => false
      | _ :: t => listContainsSub t sub

/-- Go `strings.Contains s sub`. -/
def goContains (s sub : String) : Bool :=
  listContainsSub s.toList sub.toList

/-- Decimal digit run to a number; `none` if any char is not a digit. -/
def digitsToNat : List Char → Nat → Option Nat
  | [], acc => some acc
  | c :: cs, acc =>
    if c.isDigit then digitsToNat cs (acc * 10 + (c.toNat - 48)) else none

/-- Go `strconv.ParseInt s 10 64` (overflow ignored: inputs are small).
Returns `none` exactly when Go returns an error. -/
def goParseInt (s : String) : Option Int :=
  match s.toList with
  | [] => none
  | '-' :: ds => if ds.isEmpty then none else (digitsToNat ds 0).map (fun n => -(n : Int))
  | '+' :: ds => if ds.isEmpty then none else (digitsToNat ds 0).map (fun n => (n : Int))
  | ds => (digitsToNat ds 0).map (fun n => (n : Int))

/-- The text after the last `'/'` of `s` (Go
`s[strings.LastIndex(s, "/")+1:]`; the whole of `s` if it has no slash). -/
def afterLastSlash (s : String) : String :=
  String.mk ((s.toList.reverse.takeWhile (fun c => c ≠ '/')).reverse)

/-- Issue number parsed from the tail of an issue URL, as done in
`downloadByDate` (comments feed) and in `refill`. `none` models the
`strconv.ParseInt` error path. -/
def parseIssueNum (s : String) : Option Int :=
  goParseInt (afterLastSlash s)

namespace Edit

/-! ### Text-form edit engine (`issue/edit.go`, `issue/acme.go`) -/

/-- `diff` from `issue/acme.go`: the trimmed value of a header `line`
after the `field` name, or `none` when it equals the (trimmed) `old`
value. -/
def diff (line field old : String) : Option String :=
  let old := goTrimSpace old
  let line := goTrimSpace (goTrimPfx line field)
  if old = line then none else some line

/-- The key set of the Go map `had` built by `diffList`/`diffList2`
from the `old` list (`had[f] = true` for each `f`); modelled as the
duplicate-free list of elements of `old`. -/
def mapKeys (old : List String) : List String :=
  old.dedup

/-- The loop of `diffList` over the fields of the edited line: for each
field, record a change when it is not a key of `had`, and delete it
from `had`. Returns the final `(changes, had)`. -/
def scanFields : List String → List String → Bool → Bool × List String
  | [], had, changes => (changes, had)
  | f :: fs, had, changes =>
    scanFields fs (had.filter (fun x => x ≠ f)) (changes || !had.contains f)

/-- `diffList` from `issue/edit.go` (single-issue mode): `none` when the
edited set equals the old set, otherwise the entire new field list
(the Go code replaces a nil slice by the empty non-nil slice, modelled
by `some []`). -/
def diffList (line field : String) (old : List String) : Option (List String) :=
  let line := goTrimSpace (goTrimPfx line field)
  let fields := goFields line
  let res := scanFields fields (mapKeys old) false
  let changes := res.1 || !res.2.isEmpty
  if changes then some fields else none

/-- The loop of `diffList2` over the fields of the edited line: append
each field missing from `had` to `added`, deleting it from `had`.
Returns the final `(added, had)`. -/
def scanFields2 : List String → List String → List String → List String × List String
  | [], had, added => (added, had)
  | f :: fs, had, added =>
    scanFields2 fs (had.filter (fun x => x ≠ f))
      (if had.contains f then added else added ++ [f])

/-- `diffList2` from `issue/edit.go` (bulk mode): the `(added, removed)`
label lists. -/
def diffList2 (line field : String) (old : List String) : List String × List String :=
  let line := goTrimSpace (goTrimPfx line field)
  let res := scanFields2 (goFields line) (mapKeys old) []
  let removed := if !res.2.isEmpty then old.filter (fun f => res.2.contains f) else []
  (res.1, removed)

/-- Reaction counts (`Reactions` in `issue/issue.go`). -/
structure Reactions where
  plusOne : Int := 0
  minusOne : Int := 0
  laugh : Int := 0
  confused : Int := 0
  heart : Int := 0
  hooray : Int := 0
  rocket : Int := 0
  eyes : Int := 0
deriving DecidableEq

/-- `Reactions.String` from `issue/issue.go`: each nonzero counter is
appended as `emoji count`, space separated. -/
def Reactions.render (r : Reactions) : String :=
  let add := fun (buf : String) (s : String) (n : Int) =>
    if n ≠ 0 then (if buf.isEmpty then buf else buf ++ " ") ++ s ++ " " ++ toString n else buf
  add (add (add (add (add (add (add (add "" "👍" r.plusOne) "👎" r.minusOne)
    "😆" r.laugh) "😕" r.confused) "♥" r.heart) "🎉" r.hooray) "🚀" r.rocket) "👀" r.eyes

/-- The fields of `github.Issue` consumed by `printIssue` and
`writeIssue`. Optional pointer fields are `Option`; the accessors
`getString`, `getUserLogin`, `getMilestoneTitle` all map `nil` to `""`,
modelled by `optStr`. Times are carried already formatted
(`2006-01-02 15:04:05`), since the embedding never computes on them. -/
structure Issue where
  number : Int := 0
  title : Option String := none
  state : Option String := none
  assignee : Option String := none
  closedAt : Option String := none
  labels : List String := []
  milestone : Option String := none
  htmlURL : Option String := none
  reactions : Option Reactions := none
  user : Option String := none
  createdAt : String := ""
  body : Option String := none
deriving DecidableEq

/-- `getString`/`getUserLogin`/`getMilestoneTitle`: `nil` becomes `""`. -/
def optStr (x : Option String) : String := x.getD ""

/-- `getReactions`: `nil` becomes the zero struct. -/
def getReactions (x : Option Reactions) : Reactions := x.getD {}

/-- Insertion step for `sortStrings`. -/
def insertSorted (x : String) : List String → List String
  | [] => [x]
  | y :: ys => if x < y then x :: y :: ys else y :: insertSorted x ys

/-- `sort.Strings` (ascending). -/
def sortStrings (l : List String) : List String := l.foldr insertSorted []

/-- `getLabelNames` from `issue/issue.go`: the label names, sorted. -/
def getLabelNames (i : Issue) : List String := sortStrings i.labels

/-- The part of `printIssue` (`issue/issue.go:378-388`) reaching from the
`Title:` line through the `Reported by` line. For an issue with no body,
no comments and no events this is the entire rendered text; in every
case it is the whole region that `writeIssue`'s header parser consumes
(the parser stops at the first blank line, which is the one preceding
`Reported by`). -/
def printIssueHeader (i : Issue) : String :=
  "Title: " ++ optStr i.title ++ "\n" ++
  "State: " ++ optStr i.state ++ "\n" ++
  "Assignee: " ++ optStr i.assignee ++ "\n" ++
  (match i.closedAt with
   | some t => "Closed: " ++ t ++ "\n"
   | none => "") ++
  "Labels: " ++ String.intercalate " " (getLabelNames i) ++ "\n" ++
  "Milestone: " ++ optStr i.milestone ++ "\n" ++
  "URL: " ++ optStr i.htmlURL ++ "\n" ++
  "Reactions: " ++ (getReactions i.reactions).render ++ "\n" ++
  "\nReported by " ++ optStr i.user ++ " (" ++ i.createdAt ++ ")\n"

/-- `github.IssueRequest`: the combined metadata update built by
`writeIssue`'s header loop. -/
structure IssueRequest where
  title : Option String := none
  state : Option String := none
  assignee : Option String := none
  labels : Option (List String) := none
  milestone : Option Int := none
deriving DecidableEq

/-- `findMilestone` from `issue/edit.go`, with the open-milestone list
(`loadMilestones`, a remote lookup) passed in as `(title, number)`
pairs. Returns the resolved number and any warning lines written to the
error buffer; an unresolvable name yields `none` plus a warning. -/
def findMilestone (ms : List (String × Int)) (name : Option String) :
    Option Int × List String :=
  match name with
  | none => (none, [])
  | some n =>
    match ms.find? (fun m => m.1 = n) with
    | some m => (some m.2, [])
    | none => (none, ["Unknown milestone: " ++ n])

/-- Result of `writeIssue`'s header loop: the metadata edit, the bulk
label add/remove lists, and the lines written to `errbuf`. -/
structure ParseOut where
  edit : IssueRequest := {}
  addLabels : List String := []
  removeLabels : List String := []
  errs : List String := []
deriving DecidableEq

/-- The header loop of `writeIssue` (`issue/edit.go:106-144`): iterate
the `strings.SplitAfter(sdata, "\n")` lines, stop at the first blank
line, and dispatch on the header name; an unrecognized header appends
`unknown summary line` to the error buffer. -/
def headerLines (ms : List (String × Int)) (old : Issue) (isBulk : Bool) :
    List String → ParseOut → ParseOut
  | [], acc => acc
  | line :: rest, acc =>
    let line := goTrimSpace line
    if line = "" then acc
    else if goHasPfx line "#" then headerLines ms old isBulk rest acc
    else if goHasPfx line "Title:" then
      headerLines ms old isBulk rest
        { acc with edit := { acc.edit with title := diff line "Title:" (optStr old.title) } }
    else if goHasPfx line "State:" then
      headerLines ms old isBulk rest
        { acc with edit := { acc.edit with state := diff line "State:" (optStr old.state) } }
    else if goHasPfx line "Assignee:" then
      headerLines ms old isBulk rest
        { acc with edit := { acc.edit with assignee := diff line "Assignee:" (optStr old.assignee) } }
    else if goHasPfx line "Closed:" then headerLines ms old isBulk rest acc
    else if goHasPfx line "Labels:" then
      if isBulk then
        let d := diffList2 line "Labels:" (getLabelNames old)
        headerLines ms old isBulk rest { acc with addLabels := d.1, removeLabels := d.2 }
      else
        headerLines ms old isBulk rest
          { acc with edit := { acc.edit with labels := diffList line "Labels:" (getLabelNames old) } }
    else if goHasPfx line "Milestone:" then
      let r := findMilestone ms (diff line "Milestone:" (optStr old.milestone))
      headerLines ms old isBulk rest
        { acc with edit := { acc.edit with milestone := r.1 }
                   errs := acc.errs ++ r.2 }
    else if goHasPfx line "URL:" then headerLines ms old isBulk rest acc
    else headerLines ms old isBulk rest
      { acc with errs := acc.errs ++ ["unknown summary line: " ++ line] }

/-- The header parse/diff phase of `writeIssue` applied to an edited
text buffer. A nonempty `errs` is the hard-parse-error case
(`writeIssue` then returns without issuing any mutation). -/
def parseHeader (ms : List (String × Int)) (old : Issue) (isBulk : Bool)
    (sdata : String) : ParseOut :=
  headerLines ms old isBulk (goSplitAfterNl sdata) {}

/-- The remote mutation calls the apply phase of `writeIssue` can make. -/
inductive RemoteCall where
  | createComment
  | editMeta
  | addLabelsCall
  | removeLabel (label : String)
deriving DecidableEq

/-- Outcome of the apply phase: the remote calls attempted in order, the
`did` success descriptions, the `errbuf` lines, and the `failed` flag. -/
structure ApplyResult where
  calls : List RemoteCall := []
  did : List String := []
  errs : List String := []
  failed : Bool := false
deriving DecidableEq

/-- The `did`-list join of `issue/edit.go:243-253`: `a`, `a and b`,
`a, b, and c` (with an Oxford comma from three items on). -/
def joinDid : List String → String
  | [] => ""
  | [d] => d
  | d :: rest =>
    d ++ (rest.dropLast.foldl (fun acc s => acc ++ ", " ++ s) "")
      ++ (if rest.length ≥ 2 then "," else "") ++ " and " ++ rest.getLastD ""

/-- `all[0] -= 'a'-'A'`: uppercase the first byte. -/
def capFirst (s : String) : String :=
  match s.toList with
  | [] => s
  | c :: cs => String.mk (Char.ofNat (c.toNat - 32) :: cs)

/-- The qualified-success line `(%s successfully.)` appended to the
error buffer when some steps succeeded and some failed. -/
def sumLine (did : List String) : String :=
  "(" ++ capFirst (joinDid did) ++ " successfully.)"

/-- The error line a failing remote call writes to the error buffer
(`issue/edit.go:192,205,217,234`). -/
def callErrLine (c : RemoteCall) (e : String) : String :=
  match c with
  | .createComment => "error saving comment: " ++ e
  | .editMeta => "error changing metadata: " ++ e
  | .addLabelsCall => "error adding labels: " ++ e
  | .removeLabel l => "error removing label " ++ l ++ ": " ++ e

/-- The `did` entry a succeeding remote call appends
(`issue/edit.go:195,208,220-224,237`). -/
def callDidLine (addLabels : List String) : RemoteCall → String
  | .createComment => "saved comment"
  | .editMeta => "updated metadata"
  | .addLabelsCall =>
    if addLabels.length = 1 then "added label " ++ addLabels.headD "" else "added labels"
  | .removeLabel l => "removed label " ++ l

/-- One attempted remote call of the apply phase. All four call sites of
`writeIssue` (`issue/edit.go:184-240`) share this shape: on error append
the failure line and set `failed`; on success append the `did` entry;
either way the call was made. -/
def optStep (addLabels : List String) (remoteErr : RemoteCall → Option String)
    (c : RemoteCall) (r : ApplyResult) : ApplyResult :=
  match remoteErr c with
  | some e => { r with calls := r.calls ++ [c]
                       errs := r.errs ++ [callErrLine c e]
                       failed := true }
  | none => { r with calls := r.calls ++ [c]
                     did := r.did ++ [callDidLine addLabels c] }

/-- The apply phase of `writeIssue` (`issue/edit.go:178-258`): post the
comment, apply the combined metadata edit, add labels, remove labels —
each attempted independently; finally, when something failed but some
steps succeeded, append the qualified-success line to the error
buffer.  The remote service is abstracted by `remoteErr`, giving the
error text of a call or `none` on success; the GitHub client's network
effects are outside the model. -/
def writeIssueApply (comment0 : String) (edit : IssueRequest)
    (addLabels removeLabels : List String)
    (remoteErr : RemoteCall → Option String) : ApplyResult :=
  let comment := if comment0 = "<optional comment here>" then "" else comment0
  let r : ApplyResult := {}
  let r := if comment ≠ "" then optStep addLabels remoteErr .createComment r else r
  let r :=
    if edit.title.isSome || edit.state.isSome || edit.assignee.isSome
        || edit.labels.isSome || edit.milestone.isSome then
      optStep addLabels remoteErr .editMeta r
    else r
  let r := if addLabels ≠ [] then optStep addLabels remoteErr .addLabelsCall r else r
  let r := removeLabels.foldl (fun r label => optStep addLabels remoteErr (.removeLabel label) r) r
  if r.failed && !r.did.isEmpty then { r with errs := r.errs ++ [sumLine r.did] } else r

/-- The remote calls `writeIssueApply` plans, in source order. -/
def plannedCalls (comment0 : String) (edit : IssueRequest)
    (addLabels removeLabels : List String) : List RemoteCall :=
  let comment := if comment0 = "<optional comment here>" then "" else comment0
  (if comment ≠ "" then [RemoteCall.createComment] else [])
    ++ (if edit.title.isSome || edit.state.isSome || edit.assignee.isSome
          || edit.labels.isSome || edit.milestone.isSome then [RemoteCall.editMeta] else [])
    ++ (if addLabels ≠ [] then [RemoteCall.addLabelsCall] else [])
    ++ removeLabels.map RemoteCall.removeLabel

/-- The failure lines of the planned calls under `remoteErr`. -/
def stepErrs (calls : List RemoteCall)
    (remoteErr : RemoteCall → Option String) : List String :=
  calls.flatMap (fun c => ((remoteErr c).map (callErrLine c)).toList)

/-- The success descriptions of the planned calls under `remoteErr`. -/
def stepDids (addLabels : List String) (calls : List RemoteCall)
    (remoteErr : RemoteCall → Option String) : List String :=
  calls.flatMap (fun c => if (remoteErr c).isSome then [] else [callDidLine addLabels c])

/-- A concrete issue as returned by the GitHub API: title `t`, open,
nothing else set, no reactions.  `printIssue` renders it to

    Title: t
    State: open
    Assignee:
    Labels:
    Milestone:
    URL: https://github.com/golang/go/issues/1
    Reactions:

    Reported by rsc (2015-01-08 05:17:06)
-/
def sampleIssue : Issue :=
  { number := 1
    title := some "t"
    state := some "open"
    htmlURL := some "https://github.com/golang/go/issues/1"
    reactions := some {}
    user := some "rsc"
    createdAt := "2015-01-08 05:17:06" }

end Edit

namespace Sync

/-! ### Synchronizer (`issuedb/main.go`) -/

/-- One `json.RawMessage` of a feed page, modelled by the union of the
meta fields the two sync paths unmarshal from it (`URL`, `updated_at`,
`Number`, `issue_url` for the date feeds; `id`, `url`, `Issue.Number`
for the event feed). `ok := false` models a message on which
`json.Unmarshal` fails. -/
structure Msg where
  url : String := ""
  updated : String := ""
  number : Int := 0
  issueURL : String := ""
  id : Int := 0
  issueNumber : Int := 0
  ok : Bool := true
deriving DecidableEq

/-- A row of the `RawJSON` table (keyed on `URL`); the stored blob is
carried as the `Msg` it was decoded from. -/
structure RawJSON where
  url : String
  project : String
  issue : Int
  type : String
  json : Msg
deriving DecidableEq

/-- A row of the `ProjectSync` table: the per-project checkpoints. -/
structure ProjectSync where
  name : String := ""
  eventETag : String := ""
  eventID : Int := 0
  issueDate : String := ""
  commentDate : String := ""
  refillID : Int := 0
deriving DecidableEq

/-- The durable state one sync run touches: the `RawJSON` table and the
project's `ProjectSync` row. -/
structure DB where
  raws : List RawJSON
  proj : ProjectSync
deriving DecidableEq

/-- Modelled from the spec: `rsc.io/dbstore`'s `Storage.Insert` on the
keyed `RawJSON` table — the library is an external module, its source
is not in this repository. Spec §3: "identity is unique per
(project, type) pair; re-ingesting the same identity is a no-op
(idempotent upsert)": inserting a row whose `URL` key is already
present leaves the table unchanged. -/
def insertRaw (store : List RawJSON) (r : RawJSON) : List RawJSON :=
  if store.any (fun x => x.url = r.url) then store else store ++ [r]

/-- The checkpoint field `downloadByDate` is pointed at: `IssueDate`
for the `/issues` feed, `CommentDate` for `/issues/comments`. -/
def sinceOf (api : String) (p : ProjectSync) : String :=
  if api = "/issues" then p.issueDate else p.commentDate

/-- `*since = last` followed by `storage.Write(tx, proj, sinceName)`. -/
def setSince (api : String) (p : ProjectSync) (last : String) : ProjectSync :=
  if api = "/issues" then { p with issueDate := last } else { p with commentDate := last }

/-- The item loop of `downloadByDate`'s page callback
(`issuedb/main.go:222-259`): for each message check it unmarshals and
has an `updated_at`, extract the owning issue number according to the
feed, and insert the `RawJSON` row into the transaction; `last` tracks
the most recent `updated_at` seen. Any error aborts the batch (in Go
the callback's error reaches `downloadPages`' caller, which
`log.Fatal`s; `log.Fatal` inside the loop behaves the same). -/
def dateItems (api : String) (proj : ProjectSync) :
    List Msg → String → List RawJSON → Except String (String × List RawJSON)
  | [], last, acc => .ok (last, acc)
  | m :: ms, _last, acc =>
    if m.ok = false then .error "parsing message"
    else if m.updated = "" then .error "parsing message: no updated_at"
    else
      match (if api = "/issues" then some m.number
             else if api = "/issues/comments" then parseIssueNum m.issueURL
             else none) with
      | none => .error "cannot determine issue number"
      | some n =>
        dateItems api proj ms m.updated
          (insertRaw acc { url := m.url, project := proj.name, issue := n, type := api, json := m })

/-- One page callback of `downloadByDate` (`issuedb/main.go:216-270`):
one page is one transaction. On success the inserted rows and the
checkpoint update (`*since = last`) commit together; on any earlier
error the deferred `tx.Rollback` leaves the database untouched and the
error is reported (`log.Fatal`). The page's `last` starts at the empty
string — a page with no items therefore writes `""` into the
checkpoint. -/
def downloadByDate (api : String) (db : DB) (page : List Msg) : DB × Option String :=
  match dateItems api db.proj page "" db.raws with
  | .error e => (db, some e)
  | .ok (last, raws) => ({ raws := raws, proj := setSince api db.proj last }, none)

/-- One page fetch of the newest-first event feed as seen by
`syncIssueEvents`: the decoded items plus the response `Etag`, a
`304 Not Modified` response, or a failed download. -/
inductive PageResp where
  | ok (items : List Msg) (etag : String)
  | notModified
  | fail (msg : String)
deriving DecidableEq

/-- The walker state of `syncIssueEvents`: `firstID`/`firstETag`
captured from the first item seen, and the transaction's view of the
`RawJSON` table. -/
structure WalkSt where
  firstID : Int
  firstETag : String
  raws : List RawJSON
deriving DecidableEq

/-- Outcome of the event-feed walk: an error, an early stop at the
high-water mark (the callback's `done` sentinel), or normal
exhaustion of the pages. -/
inductive WalkOut where
  | err (e : String)
  | done (st : WalkSt)
  | more (st : WalkSt)
deriving DecidableEq

/-- The `RawJSON` row `syncIssueEvents` builds for one event message. -/
def rawOfEvent (proj : ProjectSync) (id : Int) (m : Msg) : RawJSON :=
  { url := m.url
    project := proj.name
    issue := if id > 0 then id else m.issueNumber
    type := "/issues/events"
    json := m }

/-- The item loop of `syncIssueEvents`' page callback
(`issuedb/main.go:300-338`): check the message parses and has an id,
capture `firstID`/`firstETag` at the first item, stop with `done` at
the first item at or below the stored high-water `EventID` (only in
whole-repo mode `id = 0`), otherwise insert the row. -/
def doEventItems (proj : ProjectSync) (id : Int) (etag : String) :
    List Msg → WalkSt → WalkOut
  | [], st => .more st
  | m :: ms, st =>
    if m.ok = false then .err "parsing message"
    else if m.id = 0 then .err "parsing message: no id"
    else
      let st := if st.firstID = 0 then { st with firstID := m.id, firstETag := etag } else st
      if id = 0 ∧ proj.eventID ≠ 0 ∧ m.id ≤ proj.eventID then .done st
      else doEventItems proj id etag ms { st with raws := insertRaw st.raws (rawOfEvent proj id m) }

/-- `downloadPages` driving the callback over the event-feed pages:
a non-200 page stops the walk with an error (`304 Not Modified` is the
status-text of the etag hit), and the callback's `done` stops it
successfully. -/
def doEventPages (proj : ProjectSync) (id : Int) : List PageResp → WalkSt → WalkOut
  | [], st => .more st
  | p :: ps, st =>
    match p with
    | .notModified => .err "304 Not Modified"
    | .fail e => .err e
    | .ok items etag =>
      match doEventItems proj id etag items st with
      | .err e => .err e
      | .done st => .done st
      | .more st => doEventPages proj id ps st

/-- `syncIssueEvents` (`issuedb/main.go:277-361`): the whole walk runs
in a single transaction. A `304 Not Modified` returns silently with
nothing committed; any other error is fatal with nothing committed; on
success (normal end or `done`), in whole-repo mode with a first item
seen, `EventID`/`EventETag` are set to the captured values and commit
together with the inserted rows. -/
def syncIssueEvents (db : DB) (id : Int) (pages : List PageResp) : DB × Option String :=
  match doEventPages db.proj id pages ⟨0, "", db.raws⟩ with
  | .err e => if goContains e "304 Not Modified" then (db, none) else (db, some e)
  | .done st | .more st =>
    let proj := if id = 0 ∧ st.firstID ≠ 0
      then { db.proj with eventID := st.firstID, eventETag := st.firstETag }
      else db.proj
    ({ raws := st.raws, proj := proj }, none)

/-- Folding the inserts of a run of event messages into the store. -/
def foldRaws (proj : ProjectSync) (id : Int) (raws : List RawJSON) (items : List Msg) :
    List RawJSON :=
  items.foldl (fun acc m => insertRaw acc (rawOfEvent proj id m)) raws

/-- An event item strictly above the stored high-water mark — the
negation of `syncIssueEvents`' stop condition `meta.ID <= proj.EventID`. -/
def newerThan (eventID : Int) (m : Msg) : Bool :=
  decide (eventID < m.id)

end Sync

namespace Refill

/-! ### Projection / refill engine (`issuedb/main.go:495-691`) -/

/-- `ghIssueEvent`: the fields `refill` unmarshals from an event blob
(nested one-field structs are flattened to their single string). -/
structure GhIssueEvent where
  actorLogin : String := ""
  event : String := ""
  labelName : String := ""
  createdAt : String := ""
  commitID : String := ""
  assigneeLogin : String := ""
  milestoneTitle : String := ""
  renameFrom : String := ""
  renameTo : String := ""
deriving DecidableEq

/-- `ghIssueComment`. -/
structure GhIssueComment where
  issueURL : String := ""
  userLogin : String := ""
  createdAt : String := ""
  updatedAt : String := ""
  body : String := ""
deriving DecidableEq

/-- `ghIssue` (`PullRequest *struct{}` becomes a presence flag). -/
structure GhIssue where
  url : String := ""
  userLogin : String := ""
  title : String := ""
  createdAt : String := ""
  updatedAt : String := ""
  body : String := ""
  assigneeLogin : String := ""
  milestoneTitle : String := ""
  state : String := ""
  pullRequest : Bool := false
deriving DecidableEq

/-- A stored JSON blob, modelled by its decoded form. `malformed`
models bytes on which `json.Unmarshal` errors. -/
inductive Payload where
  | event (ev : GhIssueEvent)
  | comment (c : GhIssueComment)
  | issue (i : GhIssue)
  | malformed
deriving DecidableEq

/-- `json.Unmarshal(m.JSON, &ev)` for `ev : ghIssueEvent`. Unmarshalling
a well-formed object of another shape succeeds in Go and fills zero
values, modelled by the default struct; such rows are never created by
the synchronizer, whose `Type` tag always matches the payload. -/
def unmarshalEvent : Payload → Option GhIssueEvent
  | .event ev => some ev
  | .malformed => none
  | _ => some {}

/-- `json.Unmarshal` into `ghIssueComment` (see `unmarshalEvent`). -/
def unmarshalComment : Payload → Option GhIssueComment
  | .comment c => some c
  | .malformed => none
  | _ => some {}

/-- `json.Unmarshal` into `ghIssue` (see `unmarshalEvent`). -/
def unmarshalIssue : Payload → Option GhIssue
  | .issue i => some i
  | .malformed => none
  | _ => some {}

/-- A row of the `RawJSON` table as read back by `refill`. -/
structure RawJSON where
  url : String
  project : String
  issue : Int
  type : String
  json : Payload
deriving DecidableEq

/-- A row of the `History` table (keyed `(URL, Action)`). -/
structure History where
  url : String
  project : String
  issue : Int
  time : String
  who : String
  action : String
  text : String
deriving DecidableEq

/-- The event sub-kinds `refill`'s switch recognizes. -/
def knownEventKinds : List String :=
  ["subscribed", "unsubscribed", "reopened", "locked", "unlocked",
   "head_ref_deleted", "head_ref_restored", "mentioned",
   "closed", "merged", "referenced", "assigned", "unassigned",
   "labeled", "unlabeled", "milestoned", "demilestoned", "renamed"]

/-- The `h.Text` assignment of `refill`'s event switch
(`issuedb/main.go:585-605`): the unknown-kind default and the
no-text kinds leave it empty. -/
def eventText (ev : GhIssueEvent) : String :=
  if ev.event = "closed" || ev.event = "merged" || ev.event = "referenced" then ev.commitID
  else if ev.event = "assigned" || ev.event = "unassigned" then ev.assigneeLogin
  else if ev.event = "labeled" || ev.event = "unlabeled" then ev.labelName
  else if ev.event = "milestoned" || ev.event = "demilestoned" then ev.milestoneTitle
  else if ev.event = "renamed" then
    (if ev.renameFrom ≠ "" then ev.renameFrom ++ " → " ++ ev.renameTo else "")
  else ""

/-- The `History` rows `refill` emits for one `RawJSON` row
(`issuedb/main.go:566-685`). An undecodable blob or an unparsable
issue URL is logged and skipped (`continue`); an unknown event
sub-kind is logged but its row is still inserted; an issue row also
emits the `assign?`/`milestone?`/`close?` probe actions (note the
source stores the assignee login as the `milestone?` text). -/
def projectOne (m : RawJSON) : List History :=
  if m.type = "/issues/events" then
    match unmarshalEvent m.json with
    | none => []
    | some ev =>
      [{ url := m.url, project := m.project, issue := m.issue,
         time := ev.createdAt, who := ev.actorLogin, action := ev.event,
         text := eventText ev }]
  else if m.type = "/issues/comments" then
    match unmarshalComment m.json with
    | none => []
    | some ev =>
      match parseIssueNum ev.issueURL with
      | none => []
      | some n =>
        [{ url := m.url, project := m.project, issue := n,
           time := ev.updatedAt, who := ev.userLogin, action := "comment",
           text := ev.body }]
  else if m.type = "/issues" then
    match unmarshalIssue m.json with
    | none => []
    | some ev =>
      match parseIssueNum ev.url with
      | none => []
      | some n =>
        let h : History :=
          { url := m.url, project := m.project, issue := n,
            time := ev.createdAt, who := ev.userLogin,
            action := if ev.pullRequest then "pullrequest" else "issue",
            text := ev.body }
        [h]
          ++ (if ev.assigneeLogin ≠ "" then
                [{ h with action := "assign?", text := ev.assigneeLogin }] else [])
          ++ (if ev.milestoneTitle ≠ "" then
                [{ h with action := "milestone?", text := ev.assigneeLogin }] else [])
          ++ (if ev.state ≠ "open" then
                [{ h with action := "close?", text := "" }] else [])
  else []

/-- The replay loop of `refill`: the `RawJSON` rows in increasing `URL`
order, each contributing its emitted `History` rows in order. -/
def project : List RawJSON → List History
  | [] => []
  | m :: ms => projectOne m ++ project ms

/-- `refill` (`issuedb/main.go:548-691`): `delete from History`, then
regenerate the whole table by replaying the `RawJSON` rows. -/
def refillModel (raws : List RawJSON) (_hist : List History) : List History :=
  let cleared : List History := []
  cleared ++ project raws

end Refill

namespace Edit

/-! Facts about the label-diff loops. -/

theorem filter_isEmpty_eq_not_any (l : List String) (p : String → Bool) :
    (l.filter p).isEmpty = !l.any p := by
  induction l with
  | nil => rfl
  | cons x xs ih => by_cases h : p x <;> simp [h, ih]

theorem anyCongrMem {α : Type} (l : List α) (p q : α → Bool) (h : ∀ a ∈ l, p a = q a) :
    l.any p = l.any q := by
  induction l with
  | nil => rfl
  | cons x xs ih =>
    simp only [List.any_cons, h x (List.mem_cons_self x xs),
      ih (fun a ha => h a (List.mem_cons_of_mem x ha))]

theorem dedupAny (l : List String) (p : String → Bool) : l.dedup.any p = l.any p := by
  rw [Bool.eq_iff_iff]
  simp [List.any_eq_true, List.mem_dedup]

theorem notAll (l : List String) (p : String → Bool) :
    (!l.all p) = l.any (fun x => !p x) := by
  rw [Bool.eq_iff_iff]
  simp [List.all_eq_true, List.any_eq_true]

theorem scanFields_snd (fs had : List String) (c : Bool) :
    (scanFields fs had c).2 = had.filter (fun x => !fs.contains x) := by
  induction fs generalizing had c with
  | nil => simp [scanFields]
  | cons f fs ih =>
    simp only [scanFields, ih, List.filter_filter]
    refine List.filter_congr ?_
    intro x _
    by_cases hxf : x = f <;> by_cases hxs : fs.contains x <;>
      simp_all [List.elem_eq_mem]

theorem scanFields_fst (fs had : List String) (c : Bool) (h : fs.Nodup) :
    (scanFields fs had c).1 = (c || fs.any (fun f => !had.contains f)) := by
  induction fs generalizing had c with
  | nil => simp [scanFields]
  | cons f fs ih =>
    have hf : f ∉ fs := (List.nodup_cons.mp h).1
    rw [scanFields, ih _ _ (List.nodup_cons.mp h).2]
    have hcg : fs.any (fun g => !(had.filter (fun x => x ≠ f)).contains g)
        = fs.any (fun g => !had.contains g) := by
      refine anyCongrMem _ _ _ ?_
      intro g hg
      have hgf : g ≠ f := fun hEq => hf (hEq ▸ hg)
      simp [List.elem_eq_mem, List.mem_filter, hgf]
    rw [hcg]
    cases c <;> by_cases hb : f ∈ had <;>
      simp [hb, List.elem_eq_mem, Bool.or_comm, Bool.or_assoc]

theorem scanFields2_snd (fs had acc : List String) :
    (scanFields2 fs had acc).2 = had.filter (fun x => !fs.contains x) := by
  induction fs generalizing had acc with
  | nil => simp [scanFields2]
  | cons f fs ih =>
    simp only [scanFields2, ih, List.filter_filter]
    refine List.filter_congr ?_
    intro x _
    by_cases hxf : x = f <;> by_cases hxs : fs.contains x <;>
      simp_all [List.elem_eq_mem]

theorem scanFields2_fst (fs had acc : List String) (h : fs.Nodup) :
    (scanFields2 fs had acc).1 = acc ++ fs.filter (fun f => !had.contains f) := by
  induction fs generalizing had acc with
  | nil => simp [scanFields2]
  | cons f fs ih =>
    have hf : f ∉ fs := (List.nodup_cons.mp h).1
    rw [scanFields2, ih _ _ (List.nodup_cons.mp h).2]
    have hcg : fs.filter (fun g => !(had.filter (fun x => x ≠ f)).contains g)
        = fs.filter (fun g => !had.contains g) := by
      refine List.filter_congr ?_
      intro g hg
      have hgf : g ≠ f := fun hEq => hf (hEq ▸ hg)
      simp [List.elem_eq_mem, List.mem_filter, hgf]
    rw [hcg]
    by_cases hb : f ∈ had <;> simp [hb, List.elem_eq_mem, List.filter_cons]

/-- C5: for every original label set and every edited `Labels:` line
(read as a whitespace-separated set), the single-issue diff `diffList`
yields no change when the two sets are equal and otherwise the entire
new set as a full replacement, while the bulk diff `diffList2` yields
the added names and the removed names. -/
theorem c5_label_diff (line : String) (old : List String)
    (hnew : (goFields (goTrimSpace (goTrimPfx line "Labels:"))).Nodup) :
    diffList line "Labels:" old =
      (if (goFields (goTrimSpace (goTrimPfx line "Labels:"))).all (fun f => old.contains f)
          && old.all (fun f => (goFields (goTrimSpace (goTrimPfx line "Labels:"))).contains f)
        then none
        else some (goFields (goTrimSpace (goTrimPfx line "Labels:"))))
    ∧ diffList2 line "Labels:" old =
      ((goFields (goTrimSpace (goTrimPfx line "Labels:"))).filter (fun f => !old.contains f),
       old.filter (fun f => !(goFields (goTrimSpace (goTrimPfx line "Labels:"))).contains f)) := by
  set new := goFields (goTrimSpace (goTrimPfx line "Labels:")) with hdef
  have h1 : new.any (fun f => !(old.dedup).contains f) = new.any (fun f => !old.contains f) := by
    refine anyCongrMem _ _ _ ?_
    intro a _
    simp [List.elem_eq_mem, List.mem_dedup]
  constructor
  · simp only [diffList, mapKeys, scanFields_fst _ _ _ hnew, scanFields_snd,
      filter_isEmpty_eq_not_any, dedupAny, Bool.not_not, Bool.false_or]
    rw [h1, ← notAll old (fun f => new.contains f), ← notAll new (fun f => old.contains f)]
    cases hA : new.all (fun f => old.contains f) <;>
      cases hB : old.all (fun f => new.contains f) <;> simp [hA, hB]
  · simp only [diffList2, mapKeys, scanFields2_fst _ _ _ hnew, scanFields2_snd,
      filter_isEmpty_eq_not_any, Bool.not_not, List.nil_append]
    rw [Prod.mk.injEq]
    constructor
    · refine List.filter_congr ?_
      intro a _
      simp [List.elem_eq_mem, List.mem_dedup]
    · by_cases hE : (old.dedup.any fun x => !new.contains x) = true
      · simp only [hE, if_pos]
        refine List.filter_congr ?_
        intro a ha
        rw [Bool.eq_iff_iff]
        simp [List.elem_eq_mem, List.mem_filter, List.mem_dedup, ha]
      · rw [Bool.not_eq_true] at hE
        have h2 := List.any_eq_false.mp hE
        simp only [hE, Bool.false_eq_true, if_false]
        symm
        rw [List.filter_eq_nil_iff]
        intro a ha
        exact h2 a (List.mem_dedup.mpr ha)

/-- Witness for C5: original `{a,b,c}`, edited `Labels: a c d`: the
single-issue diff is the full replacement `{a,c,d}` and the bulk diff
adds `{d}` and removes `{b}`. -/
theorem c5_label_diff_witness :
    diffList "Labels: a c d" "Labels:" ["a", "b", "c"] = some ["a", "c", "d"]
    ∧ diffList2 "Labels: a c d" "Labels:" ["a", "b", "c"] = (["d"], ["b"]) := by
  have h := c5_label_diff "Labels: a c d" ["a", "b", "c"] (by decide)
  exact ⟨by rw [h.1]; decide, by rw [h.2]; decide⟩

/-- C10: in single-issue mode a `Labels:` line with a blank value
clears a non-empty original label set — `diffList` returns the empty
(non-nil) replacement set — while against an empty original set it
reports no change, so clearing and no-change are distinguished. -/
theorem c10_blank_labels (line : String) (old : List String)
    (hblank : goTrimSpace (goTrimPfx line "Labels:") = "") :
    diffList line "Labels:" old = if old.isEmpty then none else some [] := by
  simp only [diffList, hblank]
  show (if (scanFields (goFields "") (mapKeys old) false).1
      || !(scanFields (goFields "") (mapKeys old) false).2.isEmpty
    then some (goFields "") else none) = _
  have hf : goFields "" = [] := rfl
  rw [hf]
  simp only [scanFields, mapKeys, Bool.false_or]
  cases old with
  | nil => rfl
  | cons x xs =>
    have hd : (x :: xs).dedup ≠ [] := by
      intro hEq
      exact (List.cons_ne_nil x xs) ((List.dedup_eq_nil _).mp hEq)
    simp [List.isEmpty_iff, hd]

/-- Witness for C10: a blank `Labels:` line against original `{a}`
yields the empty replacement set; against no labels it yields no
change. -/
theorem c10_blank_labels_witness :
    diffList "Labels: " "Labels:" ["a"] = some []
    ∧ diffList "Labels:" "Labels:" [] = none := by
  refine ⟨?_, ?_⟩
  · have h := c10_blank_labels "Labels: " ["a"] (by decide)
    simpa using h
  · have h := c10_blank_labels "Labels:" [] (by decide)
    simpa using h

/-- C1: refuted by the code. `printIssue` always emits a `Reactions:`
header line, which `writeIssue`'s header parser does not recognize, so
re-parsing the unmodified rendered text of any issue reports
`unknown summary line: Reactions:` as a hard parse error (and
`writeIssue` returns without issuing any mutation).  Evaluated here at
the concrete issue `sampleIssue`: all other header lines produce no
field change, and exactly that parse error is reported. -/
theorem c1_render_reparse_rejected :
    parseHeader [] sampleIssue false (printIssueHeader sampleIssue) =
      { edit := {}
        addLabels := []
        removeLabels := []
        errs := ["unknown summary line: Reactions:"] } := by
  rfl

/-! Facts about the apply phase of `writeIssue`. -/

theorem stepErrs_append (xs ys : List RemoteCall) (remoteErr : RemoteCall → Option String) :
    stepErrs (xs ++ ys) remoteErr = stepErrs xs remoteErr ++ stepErrs ys remoteErr := by
  simp [stepErrs]

theorem stepDids_append (aL : List String) (xs ys : List RemoteCall)
    (remoteErr : RemoteCall → Option String) :
    stepDids aL (xs ++ ys) remoteErr = stepDids aL xs remoteErr ++ stepDids aL ys remoteErr := by
  simp [stepDids]

theorem optStep_char (aL : List String) (remoteErr : RemoteCall → Option String)
    (c : RemoteCall) (r : ApplyResult) :
    optStep aL remoteErr c r =
      { calls := r.calls ++ [c]
        did := r.did ++ stepDids aL [c] remoteErr
        errs := r.errs ++ stepErrs [c] remoteErr
        failed := r.failed || (remoteErr c).isSome } := by
  cases h : remoteErr c <;> simp [optStep, stepDids, stepErrs, h]

theorem optIf_char (aL : List String) (remoteErr : RemoteCall → Option String)
    (c : RemoteCall) (r : ApplyResult) (cond : Prop) [Decidable cond] :
    (if cond then optStep aL remoteErr c r else r) =
      { calls := r.calls ++ (if cond then [c] else [])
        did := r.did ++ stepDids aL (if cond then [c] else []) remoteErr
        errs := r.errs ++ stepErrs (if cond then [c] else []) remoteErr
        failed := r.failed
          || ((if cond then [c] else []).any (fun x => (remoteErr x).isSome)) } := by
  by_cases hc : cond
  · simp [hc, optStep_char]
  · simp [hc, stepDids, stepErrs]

theorem removeFold_char (aL : List String) (remoteErr : RemoteCall → Option String)
    (rl : List String) (r : ApplyResult) :
    rl.foldl (fun r label => optStep aL remoteErr (.removeLabel label) r) r =
      { calls := r.calls ++ rl.map RemoteCall.removeLabel
        did := r.did ++ stepDids aL (rl.map RemoteCall.removeLabel) remoteErr
        errs := r.errs ++ stepErrs (rl.map RemoteCall.removeLabel) remoteErr
        failed := r.failed
          || ((rl.map RemoteCall.removeLabel).any (fun x => (remoteErr x).isSome)) } := by
  induction rl generalizing r with
  | nil => simp [stepDids, stepErrs]
  | cons l ls ih =>
    rw [List.foldl_cons, optStep_char, ih]
    simp [stepDids, stepErrs, Bool.or_assoc]

theorem writeIssueApply_char (c0 : String) (e : IssueRequest) (aL rl : List String)
    (remoteErr : RemoteCall → Option String) :
    writeIssueApply c0 e aL rl remoteErr =
      (let calls := plannedCalls c0 e aL rl
       let r4 : ApplyResult :=
         { calls := calls
           did := stepDids aL calls remoteErr
           errs := stepErrs calls remoteErr
           failed := calls.any (fun c => (remoteErr c).isSome) }
       if r4.failed && !r4.did.isEmpty then { r4 with errs := r4.errs ++ [sumLine r4.did] }
       else r4) := by
  simp only [writeIssueApply, plannedCalls, optIf_char, removeFold_char,
    stepErrs_append, stepDids_append, List.any_append, List.nil_append,
    List.append_assoc, Bool.or_assoc, Bool.false_or]

/-- C6: the apply phase attempts, in order, the comment post, the single
combined metadata call, the label additions, and the label removals
(`plannedCalls`); which calls are attempted does not depend on any
call's outcome (a failed step never suppresses later steps); the `did`
descriptions of all succeeded steps and the failure lines of all failed
steps are reported together, with the qualified-success line appended
exactly when something failed and something else succeeded —
distinguishing a fully failed edit from a partially failed one. -/
theorem c6_apply_policy (comment0 : String) (edit : IssueRequest)
    (addLabels removeLabels : List String)
    (remoteErr remoteErr' : RemoteCall → Option String) :
    (writeIssueApply comment0 edit addLabels removeLabels remoteErr).calls
        = plannedCalls comment0 edit addLabels removeLabels
    ∧ (writeIssueApply comment0 edit addLabels removeLabels remoteErr').calls
        = (writeIssueApply comment0 edit addLabels removeLabels remoteErr).calls
    ∧ (writeIssueApply comment0 edit addLabels removeLabels remoteErr).did
        = stepDids addLabels (plannedCalls comment0 edit addLabels removeLabels) remoteErr
    ∧ (writeIssueApply comment0 edit addLabels removeLabels remoteErr).failed
        = (plannedCalls comment0 edit addLabels removeLabels).any
            (fun c => (remoteErr c).isSome)
    ∧ (writeIssueApply comment0 edit addLabels removeLabels remoteErr).errs
        = stepErrs (plannedCalls comment0 edit addLabels removeLabels) remoteErr
          ++ (if (writeIssueApply comment0 edit addLabels removeLabels remoteErr).failed
                && !(writeIssueApply comment0 edit addLabels removeLabels remoteErr).did.isEmpty
              then [sumLine (writeIssueApply comment0 edit addLabels removeLabels remoteErr).did]
              else []) := by
  rw [writeIssueApply_char, writeIssueApply_char comment0 edit addLabels removeLabels remoteErr']
  by_cases h : ((plannedCalls comment0 edit addLabels removeLabels).any
      (fun c => (remoteErr c).isSome)
      && !(stepDids addLabels (plannedCalls comment0 edit addLabels removeLabels)
        remoteErr).isEmpty) = true <;>
  by_cases h' : ((plannedCalls comment0 edit addLabels removeLabels).any
      (fun c => (remoteErr' c).isSome)
      && !(stepDids addLabels (plannedCalls comment0 edit addLabels removeLabels)
        remoteErr').isEmpty) = true <;>
    simp [h, h']

end Edit

namespace Sync

/-! Facts about the synchronizer. -/

theorem takeWhileAppendNeg {α : Type} (p : α → Bool) (l r : List α) (x : α)
    (hx : x ∈ l) (hpx : ¬ p x) : (l ++ r).takeWhile p = l.takeWhile p := by
  induction l with
  | nil => simp at hx
  | cons a as ih =>
    by_cases hpa : p a
    · simp only [List.cons_append, List.takeWhile_cons, hpa]
      rcases List.mem_cons.mp hx with h | h
      · exact absurd (h ▸ hpa) hpx
      · simp [ih h]
    · simp [List.takeWhile_cons, hpa]

theorem dropWhileAppendNeg {α : Type} (p : α → Bool) (l r : List α) (x : α)
    (hx : x ∈ l) (hpx : ¬ p x) : (l ++ r).dropWhile p = l.dropWhile p ++ r := by
  induction l with
  | nil => simp at hx
  | cons a as ih =>
    by_cases hpa : p a
    · simp only [List.cons_append, List.dropWhile_cons, hpa]
      rcases List.mem_cons.mp hx with h | h
      · exact absurd (h ▸ hpa) hpx
      · simp [hpa, ih h]
    · simp [List.dropWhile_cons, hpa]

theorem setSince_sinceOf (api : String) (p : ProjectSync) :
    setSince api p (sinceOf api p) = p := by
  by_cases h : api = "/issues" <;> simp [setSince, sinceOf, h]

/-- A page whose rows are all already present inserts nothing and ends
with `last` equal to the final item's `updated_at`. -/
theorem dateItems_nop (api : String) (proj : ProjectSync) (page : List Msg)
    (raws : List RawJSON) (last0 : String)
    (happi : api = "/issues" ∨ api = "/issues/comments")
    (hok : ∀ m ∈ page, m.ok = true ∧ m.updated ≠ "")
    (hnum : ∀ m ∈ page, api = "/issues/comments" → (parseIssueNum m.issueURL).isSome)
    (hdup : ∀ m ∈ page, raws.any (fun x => x.url = m.url) = true) :
    dateItems api proj page last0 raws
      = .ok (page.foldl (fun _ m => m.updated) last0, raws) := by
  induction page generalizing last0 with
  | nil => simp [dateItems]
  | cons m ms ih =>
    obtain ⟨hok1, hup1⟩ := hok m (List.mem_cons_self _ _)
    have ihm := ih m.updated (fun x hx => hok x (List.mem_cons_of_mem _ hx))
      (fun x hx => hnum x (List.mem_cons_of_mem _ hx))
      (fun x hx => hdup x (List.mem_cons_of_mem _ hx))
    rcases happi with h | h
    · subst h
      have hins : insertRaw raws
          { url := m.url, project := proj.name, issue := m.number,
            type := "/issues", json := m } = raws := by
        simp [insertRaw, hdup m (List.mem_cons_self _ _)]
      rw [dateItems]
      rw [if_neg (by simp [hok1]), if_neg hup1]
      rw [if_pos rfl]
      simp only [hins, ihm]
      rfl
    · subst h
      obtain ⟨n, hn⟩ := Option.isSome_iff_exists.mp (hnum m (List.mem_cons_self _ _) rfl)
      have hins : insertRaw raws
          { url := m.url, project := proj.name, issue := n,
            type := "/issues/comments", json := m } = raws := by
        simp [insertRaw, hdup m (List.mem_cons_self _ _)]
      rw [dateItems]
      rw [if_neg (by simp [hok1]), if_neg hup1]
      rw [if_neg (by decide), if_pos rfl, hn]
      simp only [hins, ihm]
      rfl

/-- After the first item fixed `firstID ≠ 0`, the item loop inserts
exactly the items above the high-water mark and stops (`done`) iff one
at or below it appears. -/
theorem doEventItems_steady (proj : ProjectSync) (etag : String) (items : List Msg)
    (f : Int) (e : String) (raws : List RawJSON)
    (hf : f ≠ 0) (heid : proj.eventID ≠ 0)
    (hok : ∀ m ∈ items, m.ok = true ∧ m.id ≠ 0) :
    doEventItems proj 0 etag items ⟨f, e, raws⟩ =
      if (items.dropWhile (newerThan proj.eventID)).isEmpty
      then .more ⟨f, e, foldRaws proj 0 raws (items.takeWhile (newerThan proj.eventID))⟩
      else .done ⟨f, e, foldRaws proj 0 raws (items.takeWhile (newerThan proj.eventID))⟩ := by
  induction items generalizing raws with
  | nil => simp [doEventItems, foldRaws]
  | cons m ms ih =>
    obtain ⟨hok1, hid1⟩ := hok m (List.mem_cons_self _ _)
    by_cases hstop : m.id ≤ proj.eventID
    · have hp : newerThan proj.eventID m = false := by
        simp only [newerThan, decide_eq_false_iff_not, not_lt]
        exact hstop
      simp [doEventItems, hok1, hid1, hf, heid, hstop, hp, List.dropWhile_cons,
        List.takeWhile_cons, foldRaws]
    · have hp : newerThan proj.eventID m = true := by
        simp only [newerThan, decide_eq_true_eq]
        omega
      have ihm := ih (insertRaw raws (rawOfEvent proj 0 m))
        (fun x hx => hok x (List.mem_cons_of_mem _ hx))
      simp [doEventItems, hok1, hid1, hf, heid, hstop, hp, List.dropWhile_cons,
        List.takeWhile_cons, foldRaws] at ihm ⊢
      exact ihm

/-- `doEventItems_steady` lifted over a run of successfully fetched
pages: the walk over their concatenated item stream. -/
theorem doEventPages_steady (proj : ProjectSync) (pgs : List (List Msg × String))
    (f : Int) (e : String) (raws : List RawJSON)
    (hf : f ≠ 0) (heid : proj.eventID ≠ 0)
    (hok : ∀ pr ∈ pgs, ∀ m ∈ pr.1, m.ok = true ∧ m.id ≠ 0) :
    doEventPages proj 0 (pgs.map fun x => PageResp.ok x.1 x.2) ⟨f, e, raws⟩ =
      if (((pgs.map Prod.fst).flatten).dropWhile (newerThan proj.eventID)).isEmpty
      then .more ⟨f, e,
        foldRaws proj 0 raws (((pgs.map Prod.fst).flatten).takeWhile (newerThan proj.eventID))⟩
      else .done ⟨f, e,
        foldRaws proj 0 raws (((pgs.map Prod.fst).flatten).takeWhile (newerThan proj.eventID))⟩ := by
  induction pgs generalizing raws with
  | nil => simp [doEventPages, foldRaws]
  | cons pg pgs ih =>
    obtain ⟨items, etag⟩ := pg
    have hok1 : ∀ m ∈ items, m.ok = true ∧ m.id ≠ 0 := hok (items, etag) (by simp)
    have hokr : ∀ pr ∈ pgs, ∀ m ∈ pr.1, m.ok = true ∧ m.id ≠ 0 :=
      fun pr hpr => hok pr (List.mem_cons_of_mem _ hpr)
    simp only [List.map_cons, doEventPages,
      doEventItems_steady proj etag items f e raws hf heid hok1]
    by_cases hall : (items.dropWhile (newerThan proj.eventID)).isEmpty
    · have hsat : ∀ m ∈ items, newerThan proj.eventID m = true := by
        rw [List.isEmpty_iff] at hall
        exact List.dropWhile_eq_nil_iff.mp hall
      have htake : items.takeWhile (newerThan proj.eventID) = items :=
        List.takeWhile_eq_self_iff.mpr hsat
      simp only [hall, if_true, if_pos]
      rw [ih _ hokr]
      simp only [List.map_cons, List.flatten_cons]
      rw [List.dropWhile_append_of_pos hsat, List.takeWhile_append_of_pos hsat,
        htake]
      simp [foldRaws, List.foldl_append]
    · have hex : ∃ x ∈ items, ¬ newerThan proj.eventID x = true := by
        by_contra hcon
        push_neg at hcon
        exact hall (List.isEmpty_iff.mpr (List.dropWhile_eq_nil_iff.mpr
          (fun x hx => by simpa using hcon x hx)))
      obtain ⟨x, hx, hpx⟩ := hex
      simp only [hall, if_false]
      simp only [List.map_cons, List.flatten_cons]
      rw [takeWhileAppendNeg _ _ _ x hx hpx, dropWhileAppendNeg _ _ _ x hx hpx]
      have hne : ¬ ((items.dropWhile (newerThan proj.eventID))
          ++ (pgs.map Prod.fst).flatten).isEmpty = true := by
        rw [List.isEmpty_iff] at hall ⊢
        simp only [List.append_eq_nil]
        intro hcon
        exact hall hcon.1
      simp [hne]

/-- C2: re-ingesting an identity already in the Raw Event Store is a
no-op, and a date-feed sync batch that re-serves only rows already
stored, whose final `updated_at` equals the stored checkpoint — a
second run of the same sync with no new remote data — inserts zero new
RawEvents and leaves the database, checkpoint included, unchanged. -/
theorem c2_idempotent_ingest :
    (∀ (store : List RawJSON) (r : RawJSON),
        store.any (fun x => x.url = r.url) = true → insertRaw store r = store)
    ∧ (∀ (api : String) (db : DB) (page : List Msg),
        api = "/issues" ∨ api = "/issues/comments" →
        (∀ m ∈ page, m.ok = true ∧ m.updated ≠ "") →
        (∀ m ∈ page, api = "/issues/comments" → (parseIssueNum m.issueURL).isSome) →
        (∀ m ∈ page, db.raws.any (fun x => x.url = m.url) = true) →
        page.foldl (fun _ m => m.updated) "" = sinceOf api db.proj →
        downloadByDate api db page = (db, none)) := by
  constructor
  · intro store r h
    simp [insertRaw, h]
  · intro api db page happi hok hnum hdup hlast
    rw [downloadByDate, dateItems_nop api db.proj page db.raws "" happi hok hnum hdup,
      hlast]
    simp only [setSince_sinceOf]

/-- Witness for C2: re-inserting the stored row `u1` (even with a
different payload) leaves the store unchanged, and a second sync of
project `o/r` that re-serves only the checkpoint-boundary row inserts
nothing and leaves `IssueDate` untouched. -/
theorem c2_idempotent_ingest_witness :
    (insertRaw
        [{ url := "u1", project := "o/r", issue := 7, type := "/issues", json := {} }]
        { url := "u1", project := "o/r", issue := 7, type := "/issues",
          json := { updated := "2020-02-02T00:00:00Z" } }
      = [{ url := "u1", project := "o/r", issue := 7, type := "/issues", json := {} }])
    ∧ downloadByDate "/issues"
        { raws := [{ url := "u1", project := "o/r", issue := 7, type := "/issues",
                     json := { url := "u1", updated := "2020-01-01T00:00:00Z", number := 7 } }]
          proj := { name := "o/r", issueDate := "2020-01-01T00:00:00Z" } }
        [{ url := "u1", updated := "2020-01-01T00:00:00Z", number := 7 }]
      = ({ raws := [{ url := "u1", project := "o/r", issue := 7, type := "/issues",
                      json := { url := "u1", updated := "2020-01-01T00:00:00Z", number := 7 } }]
           proj := { name := "o/r", issueDate := "2020-01-01T00:00:00Z" } }, none) := by
  constructor
  · exact c2_idempotent_ingest.1 _ _ (by decide)
  · exact c2_idempotent_ingest.2 "/issues" _ _ (Or.inl rfl) (by decide) (by decide)
      (by decide) (by decide)

/-- C3: refuted by the code on a zero-item page. `downloadByDate`'s
callback starts `last` at `""` and unconditionally writes it to the
checkpoint, so a successful batch whose page has no items — e.g. a
comments sync after every comment at or past the checkpoint was
deleted remotely — resets the stored `CommentDate` from
`2020-01-01T00:00:00Z` to `""`, strictly below its previous value
(ISO-8601 strings compare lexicographically).  The
"never advanced on failure" half does hold
(see `c4_batch_atomicity`). -/
theorem c3_empty_page_resets_checkpoint :
    downloadByDate "/issues/comments"
        { raws := [], proj := { name := "o/r", commentDate := "2020-01-01T00:00:00Z" } } []
      = ({ raws := [], proj := { name := "o/r", commentDate := "" } }, none)
    ∧ ("".toList < "2020-01-01T00:00:00Z".toList) := by
  exact ⟨rfl, by decide⟩

/-- C4: per-batch atomicity. A date-feed page is one transaction: on
failure the database is unchanged (rows and checkpoint alike); on
success the resulting rows are exactly the batch's inserts and the
checkpoint update is applied in the same result. Likewise the whole
event-feed walk is one transaction: on a fatal error the database is
unchanged, and on success either nothing was touched (the `304` path)
or the inserted rows and the `EventID`/`EventETag` update take effect
together. -/
theorem c4_batch_atomicity (api : String) (db : DB) (page : List Msg) (id : Int)
    (pages : List PageResp) :
    ((downloadByDate api db page).2.isSome → (downloadByDate api db page).1 = db)
    ∧ ((downloadByDate api db page).2 = none →
        ∃ last, dateItems api db.proj page "" db.raws
            = .ok (last, (downloadByDate api db page).1.raws)
          ∧ (downloadByDate api db page).1.proj = setSince api db.proj last)
    ∧ ((syncIssueEvents db id pages).2.isSome → (syncIssueEvents db id pages).1 = db)
    ∧ ((syncIssueEvents db id pages).2 = none →
        (syncIssueEvents db id pages).1 = db
        ∨ ∃ st, (doEventPages db.proj id pages ⟨0, "", db.raws⟩ = .done st
              ∨ doEventPages db.proj id pages ⟨0, "", db.raws⟩ = .more st)
          ∧ (syncIssueEvents db id pages).1
              = { raws := st.raws
                  proj := if id = 0 ∧ st.firstID ≠ 0
                    then { db.proj with eventID := st.firstID, eventETag := st.firstETag }
                    else db.proj }) := by
  refine ⟨?_, ?_, ?_, ?_⟩
  · intro h
    rcases hdi : dateItems api db.proj page "" db.raws with e | p
    · simp [downloadByDate, hdi]
    · rw [downloadByDate, hdi] at h
      obtain ⟨last, raws⟩ := p
      simp at h
  · intro h
    rcases hdi : dateItems api db.proj page "" db.raws with e | p
    · rw [downloadByDate, hdi] at h
      simp at h
    · obtain ⟨last, raws⟩ := p
      refine ⟨last, ?_, ?_⟩ <;> simp [downloadByDate, hdi]
  · intro h
    rcases hdp : doEventPages db.proj id pages ⟨0, "", db.raws⟩ with e | st | st
    · rw [syncIssueEvents, hdp] at h ⊢
      by_cases hc : goContains e "304 Not Modified" = true <;> simp [hc] at h ⊢
    · rw [syncIssueEvents, hdp] at h
      simp at h
    · rw [syncIssueEvents, hdp] at h
      simp at h
  · intro h
    rcases hdp : doEventPages db.proj id pages ⟨0, "", db.raws⟩ with e | st | st
    · left
      rw [syncIssueEvents, hdp] at h ⊢
      by_cases hc : goContains e "304 Not Modified" = true <;> simp [hc] at h ⊢
    · right
      exact ⟨st, Or.inl rfl, by rw [syncIssueEvents, hdp]⟩
    · right
      exact ⟨st, Or.inr rfl, by rw [syncIssueEvents, hdp]⟩

/-- Witness for C4: a page whose message lacks `updated_at` fails the
batch and leaves the database unchanged, and a failed event-feed
download leaves it unchanged too. -/
theorem c4_batch_atomicity_witness :
    ((downloadByDate "/issues"
        { raws := [], proj := { name := "o/r", issueDate := "2020-01-01T00:00:00Z" } }
        [{ url := "u2", updated := "", number := 9 }]).1
      = { raws := [], proj := { name := "o/r", issueDate := "2020-01-01T00:00:00Z" } })
    ∧ ((syncIssueEvents
        { raws := [], proj := { name := "o/r", eventID := 5 } } 0
        [PageResp.fail "502 Bad Gateway"]).1
      = { raws := [], proj := { name := "o/r", eventID := 5 } }) := by
  constructor
  · exact (c4_batch_atomicity "/issues" _ _ 0 []).1 (by decide)
  · exact (c4_batch_atomicity "/issues" _ [] 0 [PageResp.fail "502 Bad Gateway"]).2.2.1
      (by decide)

/-- C7: syncing the newest-first event feed with a stored high-water
`EventID`: the walk over the concatenated page stream inserts exactly
the items strictly above the stored id — it stops at the first item at
or below it, inserting nothing further — and on success the id of the
first item of the first page and that page's etag are persisted as the
new high-water mark, even when the stop kept older items from being
walked. -/
theorem c7_event_highwater (db : DB) (m1 : Msg) (ms1 : List Msg) (et1 : String)
    (rest : List (List Msg × String))
    (h0 : db.proj.eventID ≠ 0)
    (hok : ∀ m ∈ (m1 :: ms1) ++ (rest.map Prod.fst).flatten, m.ok = true ∧ m.id ≠ 0) :
    syncIssueEvents db 0
        (PageResp.ok (m1 :: ms1) et1 :: rest.map (fun x => PageResp.ok x.1 x.2)) =
      ({ raws := foldRaws db.proj 0 db.raws
            (((m1 :: ms1) ++ (rest.map Prod.fst).flatten).takeWhile
              (newerThan db.proj.eventID))
         proj := { db.proj with eventID := m1.id, eventETag := et1 } }, none) := by
  have hm1 := hok m1 (by simp)
  by_cases hstop : m1.id ≤ db.proj.eventID
  · have hp : newerThan db.proj.eventID m1 = false := by
      simp only [newerThan, decide_eq_false_iff_not, not_lt]
      exact hstop
    have hitems : doEventItems db.proj 0 et1 (m1 :: ms1) ⟨0, "", db.raws⟩
        = .done ⟨m1.id, et1, db.raws⟩ := by
      simp [doEventItems, hm1.1, hm1.2, hstop, h0]
    have hpages : doEventPages db.proj 0
        (PageResp.ok (m1 :: ms1) et1 :: rest.map (fun x => PageResp.ok x.1 x.2))
        ⟨0, "", db.raws⟩ = .done ⟨m1.id, et1, db.raws⟩ := by
      rw [doEventPages, hitems]
    rw [syncIssueEvents, hpages]
    simp [hm1.2, List.cons_append, List.takeWhile_cons, hp, foldRaws]
  · have hp : newerThan db.proj.eventID m1 = true := by
      simp only [newerThan, decide_eq_true_eq]
      omega
    have hitems : doEventItems db.proj 0 et1 (m1 :: ms1) ⟨0, "", db.raws⟩
        = doEventItems db.proj 0 et1 ms1
            ⟨m1.id, et1, insertRaw db.raws (rawOfEvent db.proj 0 m1)⟩ := by
      simp [doEventItems, hm1.1, hm1.2, hstop, h0]
    have hrw : doEventPages db.proj 0
        (PageResp.ok (m1 :: ms1) et1 :: rest.map (fun x => PageResp.ok x.1 x.2))
        ⟨0, "", db.raws⟩
        = doEventPages db.proj 0
            (((ms1, et1) :: rest).map (fun x => PageResp.ok x.1 x.2))
            ⟨m1.id, et1, insertRaw db.raws (rawOfEvent db.proj 0 m1)⟩ := by
      rw [doEventPages, hitems, List.map_cons]
      rw [doEventPages]
    have hokr : ∀ pr ∈ ((ms1, et1) :: rest), ∀ m ∈ pr.1, m.ok = true ∧ m.id ≠ 0 := by
      intro pr hpr m hm
      rcases List.mem_cons.mp hpr with h | h
      · subst h
        exact hok m (by simp [hm])
      · have hfl : m ∈ (rest.map Prod.fst).flatten :=
          List.mem_flatten.mpr ⟨pr.1, List.mem_map.mpr ⟨pr, h, rfl⟩, hm⟩
        exact hok m (by simp [hfl])
    rw [syncIssueEvents, hrw,
      doEventPages_steady db.proj ((ms1, et1) :: rest) m1.id et1 _ hm1.2 h0 hokr]
    have hstream : ((((ms1, et1) :: rest).map Prod.fst).flatten) =
        ms1 ++ (rest.map Prod.fst).flatten := by
      simp
    rw [hstream]
    have htk : ((m1 :: ms1) ++ (rest.map Prod.fst).flatten).takeWhile
          (newerThan db.proj.eventID)
        = m1 :: (ms1 ++ (rest.map Prod.fst).flatten).takeWhile (newerThan db.proj.eventID) := by
      simp [List.cons_append, List.takeWhile_cons, hp]
    rw [htk]
    have hfold : ∀ t, foldRaws db.proj 0 db.raws (m1 :: t)
        = foldRaws db.proj 0 (insertRaw db.raws (rawOfEvent db.proj 0 m1)) t := by
      intro t
      simp [foldRaws]
    rw [hfold]
    by_cases hie : (((ms1 ++ (rest.map Prod.fst).flatten)).dropWhile
        (newerThan db.proj.eventID)).isEmpty
    · simp [hie, hm1.2]
    · simp [hie, hm1.2]

/-- Witness for C7: stored `EventID = 100`; one page with ids
`300, 200, 50`: rows `300` and `200` are inserted, the walk stops at
`50`, and `EventID`/`EventETag` become `300`/`W/xyz`. -/
theorem c7_event_highwater_witness :
    syncIssueEvents
        { raws := [], proj := { name := "o/r", eventID := 100, eventETag := "oldetag" } } 0
        [PageResp.ok
          [{ url := "u300", id := 300, issueNumber := 3 },
           { url := "u200", id := 200, issueNumber := 2 },
           { url := "u50", id := 50, issueNumber := 1 }] "W/xyz"]
      = ({ raws :=
            [{ url := "u300", project := "o/r", issue := 3, type := "/issues/events",
               json := { url := "u300", id := 300, issueNumber := 3 } },
             { url := "u200", project := "o/r", issue := 2, type := "/issues/events",
               json := { url := "u200", id := 200, issueNumber := 2 } }]
           proj := { name := "o/r", eventID := 300, eventETag := "W/xyz" } }, none) := by
  have h := c7_event_highwater
    { raws := [], proj := { name := "o/r", eventID := 100, eventETag := "oldetag" } }
    { url := "u300", id := 300, issueNumber := 3 }
    [{ url := "u200", id := 200, issueNumber := 2 },
     { url := "u50", id := 50, issueNumber := 1 }]
    "W/xyz" [] (by decide) (by decide)
  simp only [List.map_nil] at h
  rw [h]
  rfl

end Sync

namespace Refill

/-! Facts about the projection / refill engine. -/

theorem project_append (S T : List RawJSON) :
    project (S ++ T) = project S ++ project T := by
  induction S with
  | nil => simp [project]
  | cons m ms ih => simp [project, ih]

/-- C9: the replay is deterministic — its output does not depend on the
History contents found before the run, which `refill` deletes first —
and order-preserving: replaying after appending new RawEvents
reproduces every previously emitted HistoryAction unchanged and
appends the actions of the new events at the end. -/
theorem c9_replay_deterministic (S T : List RawJSON) (h1 h2 : List History) :
    refillModel S h1 = refillModel S h2
    ∧ refillModel (S ++ T) h1 = refillModel S h2 ++ project T := by
  constructor
  · rfl
  · simp [refillModel, project_append]

/-- Counterexample to C8 as stated: an Event-type RawEvent whose
sub-kind `sparkled` is unknown is not dropped — the replay still
produces one HistoryAction row for it (action `sparkled`, empty
text). -/
theorem c8_unknown_kind_counterexample :
    projectOne { url := "u8", project := "o/r", issue := 7, type := "/issues/events",
                 json := .event { actorLogin := "alice", event := "sparkled",
                                  createdAt := "2020-01-02T03:04:05Z" } }
      = [{ url := "u8", project := "o/r", issue := 7, time := "2020-01-02T03:04:05Z",
           who := "alice", action := "sparkled", text := "" }]
    ∧ projectOne { url := "u8", project := "o/r", issue := 7, type := "/issues/events",
                   json := .event { actorLogin := "alice", event := "sparkled",
                                    createdAt := "2020-01-02T03:04:05Z" } } ≠ [] := by
  exact ⟨rfl, by decide⟩

/-- C8 (amended): during replay, an Event-type RawEvent whose sub-kind
is none of the known kinds is logged and still inserted: it produces
exactly one HistoryAction row, carrying the unknown sub-kind as the
action and an empty text, and it does not abort the replay of the
remaining RawEvents. -/
theorem c8_unknown_kind_amended (m : RawJSON) (ev : GhIssueEvent) (rest : List RawJSON)
    (htype : m.type = "/issues/events") (hjson : m.json = .event ev)
    (hunk : ev.event ∉ knownEventKinds) :
    projectOne m = [{ url := m.url, project := m.project, issue := m.issue,
                      time := ev.createdAt, who := ev.actorLogin, action := ev.event,
                      text := "" }]
    ∧ project (m :: rest) = projectOne m ++ project rest := by
  have hne : ∀ k ∈ knownEventKinds, ev.event ≠ k := fun k hk he => hunk (he ▸ hk)
  have htext : eventText ev = "" := by
    simp [eventText, hne "closed" (by decide), hne "merged" (by decide),
      hne "referenced" (by decide), hne "assigned" (by decide),
      hne "unassigned" (by decide), hne "labeled" (by decide),
      hne "unlabeled" (by decide), hne "milestoned" (by decide),
      hne "demilestoned" (by decide), hne "renamed" (by decide)]
  constructor
  · simp [projectOne, htype, hjson, unmarshalEvent, htext]
  · simp [project]

/-- Witness for C8 (amended): the unknown-kind event `sparkled` yields
its own row and the following known event is still replayed. -/
theorem c8_unknown_kind_amended_witness :
    project
        [{ url := "u8", project := "o/r", issue := 7, type := "/issues/events",
           json := .event { actorLogin := "alice", event := "sparkled",
                            createdAt := "2020-01-02T03:04:05Z" } },
         { url := "u9", project := "o/r", issue := 7, type := "/issues/events",
           json := .event { actorLogin := "bob", event := "closed",
                            createdAt := "2020-01-03T00:00:00Z", commitID := "abc123" } }]
      = [{ url := "u8", project := "o/r", issue := 7, time := "2020-01-02T03:04:05Z",
           who := "alice", action := "sparkled", text := "" },
         { url := "u9", project := "o/r", issue := 7, time := "2020-01-03T00:00:00Z",
           who := "bob", action := "closed", text := "abc123" }] := by
  have h := c8_unknown_kind_amended
    { url := "u8", project := "o/r", issue := 7, type := "/issues/events",
      json := .event { actorLogin := "alice", event := "sparkled",
                       createdAt := "2020-01-02T03:04:05Z" } }
    { actorLogin := "alice", event := "sparkled", createdAt := "2020-01-02T03:04:05Z" }
    [{ url := "u9", project := "o/r", issue := 7, type := "/issues/events",
       json := .event { actorLogin := "bob", event := "closed",
                        createdAt := "2020-01-03T00:00:00Z", commitID := "abc123" } }]
    rfl rfl (by decide)
  refine h.2.trans ?_
  rw [h.1]
  rfl

end Refill

end GithubSpec
